import Mathlib

/-!
Shallow embedding of `main.go` from the xtop repository: a terminal system
monitor built on an event-loop (model / update / view) architecture.

Modelling conventions:
* Go `float64` / `float32` metric values are modelled as `Rat` (the claims
  under verification concern only ordering and field plumbing, never binary
  floating-point rounding).
* Go strings are modelled as Lean `String`; Go's byte-level `len` and slicing
  are modelled by character-level `String.length` / `String.take` (identical
  for ASCII data; UTF-8 byte order and code-point order agree lexicographically).
* `sort.Slice` guarantees only that the result is ordered by the supplied
  `less` comparator (ties in an unspecified, deterministic order); it is
  modelled by `List.insertionSort` over the relation `le a b := ¬ less b a`
  induced by the source comparator, which realises exactly that postcondition.
* The bubbletea/bubbles `table.Model` is an external display-surface
  component; its `Update` never changes the row data handed to it by
  `SetRows` and issues no sampling command, so it is modelled as the identity
  on the stored rows.  Styling (`lipgloss.Render`) is modelled as the
  identity on strings.
-/

namespace XTop

/-- Raw per-process data as read from gopsutil (`p.Pid`, `p.Name()`,
`p.CPUPercent()`, `p.MemoryPercent()`, `p.Status()`, `p.Username()`), with
acquisition errors already replaced by zero values as in `getProcessInfo`. -/
structure RawProc where
  pid : Int
  name : String
  cpuPerc : Rat
  memPerc : Rat
  status : String
  username : String
deriving DecidableEq, Repr

/-- Mirror of the Go `ProcessInfo` struct (main.go lines 49-56). -/
structure ProcessInfo where
  PID : Int
  Name : String
  CPUPerc : Rat
  MemPerc : Rat
  Status : String
  User : String
deriving DecidableEq, Repr

/-- Mirror of the fields of `mem.VirtualMemoryStat` used by the program. -/
structure MemStat where
  used : Nat
  total : Nat
  usedPercent : Rat
deriving DecidableEq, Repr

/-- Mirror of the Go `systemStats` struct (main.go lines 40-47).  The
`processes` slice may contain `nil` pointers, modelled as `Option.none`. -/
structure SystemStats where
  uptime : Nat
  loadAvg : Option (Rat × Rat × Rat)
  cpuPercent : List Rat
  memStats : Option MemStat
  processes : List (Option RawProc)
  processInfo : List ProcessInfo
deriving DecidableEq

/-- Mirror of a `table.Row` (`[]string` with the six columns set in
`updateTable`: PID, USER, CPU%, MEM%, STATUS, COMMAND). -/
structure Row where
  pid : String
  user : String
  cpu : String
  mem : String
  status : String
  command : String
deriving DecidableEq, Repr

/-- Mirror of the Go `model` struct (main.go lines 58-65).  The bubbles
`table.Model` is represented by the row data and viewport dimensions the
program hands to it (`SetRows`, `SetWidth`, `SetHeight`). -/
structure Model where
  tableRows : List Row
  tableWidth : Int
  tableHeight : Int
  stats : SystemStats
  sortBy : String
  ascending : Bool
  lastUpdate : Nat
deriving DecidableEq

/-- Mirror of `getProcessInfo` (main.go lines 146-182): skip `nil` entries and
empty-name processes; truncate the username to its first 8 characters when
longer than 8. -/
def getProcessInfo : List (Option RawProc) → List ProcessInfo
  | [] => []
  | Option.none :: ps => getProcessInfo ps
  | Option.some p :: ps =>
    if p.name = "" then getProcessInfo ps
    else
      { PID := p.pid
        Name := p.name
        CPUPerc := p.cpuPerc
        MemPerc := p.memPerc
        Status := p.status
        User := if p.username.length > 8 then p.username.take 8 else p.username } ::
      getProcessInfo ps

/-- Mirror of the comparison closure passed to `sort.Slice` in `updateTable`
(main.go lines 225-249), as a function of the two compared records. -/
def lessFn (sortBy : String) (ascending : Bool) (a b : ProcessInfo) : Bool :=
  if sortBy = "cpu" then
    if ascending then a.CPUPerc < b.CPUPerc else a.CPUPerc > b.CPUPerc
  else if sortBy = "memory" then
    if ascending then a.MemPerc < b.MemPerc else a.MemPerc > b.MemPerc
  else if sortBy = "pid" then
    if ascending then a.PID < b.PID else a.PID > b.PID
  else if sortBy = "name" then
    if ascending then a.Name < b.Name else a.Name > b.Name
  else false

/-- The non-strict order induced by the `sort.Slice` comparator: `a` may
precede `b` exactly when the comparator does not demand `b` before `a`.
`sort.Slice`'s postcondition is that the result is `Pairwise` ordered by this
relation. -/
def sortLE (sortBy : String) (ascending : Bool) (a b : ProcessInfo) : Prop :=
  lessFn sortBy ascending b a = false

instance (sb : String) (asc : Bool) : DecidableRel (sortLE sb asc) := by
  intro a b
  unfold sortLE
  infer_instance

/-- Model of the `sort.Slice` call in `updateTable`: a deterministic
comparison sort producing a permutation ordered by `sortLE`. -/
def sortProcs (sortBy : String) (ascending : Bool) (l : List ProcessInfo) :
    List ProcessInfo :=
  List.insertionSort (sortLE sortBy ascending) l

/-- Round `10 * q` to the nearest integer, ties to even — the rounding mode of
Go's `fmt` `%.1f` verb, applied to the exact rational value.  Computed on the
representation `(10 * q.num) / q.den`: `f` is the floor of `10 * q` and `r`
the numerator of its fractional part, compared with one half as `2 * r`
against the denominator.  Kept in integer arithmetic so it evaluates by
kernel reduction. -/
def roundTenths (q : Rat) : Int :=
  let f := Int.fdiv (q.num * 10) q.den
  let r := q.num * 10 - f * q.den
  if 2 * r < (q.den : Int) then f
  else if 2 * r > (q.den : Int) then f + 1
  else if f % 2 = 0 then f else f + 1

/-- Model of `fmt.Sprintf` with the `%.1f` verb: one digit after the decimal
point. -/
def fmt1 (q : Rat) : String :=
  (if roundTenths q < 0 then "-" else "") ++
    toString ((roundTenths q).natAbs / 10) ++ "." ++
    toString ((roundTenths q).natAbs % 10)

/-- One table row as built in the loop of `updateTable` (main.go lines
253-272): decimal PID, user verbatim, CPU% and MEM% to one decimal place,
status verbatim, and the command name truncated to 28 characters plus a
two-character `".."` marker when longer than 28. -/
def toRow (p : ProcessInfo) : Row :=
  { pid := toString p.PID
    user := p.User
    cpu := fmt1 p.CPUPerc
    mem := fmt1 p.MemPerc
    status := p.Status
    command := if p.Name.length > 28 then p.Name.take 28 ++ ".." else p.Name }

/-- The row-building loop of `updateTable`: `cap` is the remaining capacity
(50 minus the rows built so far); the Go loop breaks once 50 rows exist. -/
def rowsLoop : List ProcessInfo → Nat → List Row
  | [], _ => []
  | _ :: _, 0 => []
  | p :: ps, Nat.succ cap => toRow p :: rowsLoop ps cap

/-- The spec's `deriveRows(S, D)`: the body of `updateTable` as a pure
function of the ingested process list and the sort directive — sort by the
comparator, then build at most 50 display rows. -/
def deriveRows (info : List ProcessInfo) (sortBy : String) (ascending : Bool) :
    List Row :=
  rowsLoop (sortProcs sortBy ascending info) 50

/-- Mirror of `updateTable` (main.go lines 223-275): `sort.Slice` sorts
`m.stats.processInfo` in place, then the first 50 entries become the table
rows via `m.table.SetRows`. -/
def updateTable (m : Model) : Model :=
  { m with
    stats :=
      { m.stats with
        processInfo := sortProcs m.sortBy m.ascending m.stats.processInfo }
    tableRows := deriveRows m.stats.processInfo m.sortBy m.ascending }

/-- The four message kinds handled by `Update` (main.go lines 184-221):
`tea.KeyMsg` (carrying `msg.String()`), `tickMsg`, `systemStats`, and
`tea.WindowSizeMsg`. -/
inductive Msg where
  | key : String → Msg
  | tick : Nat → Msg
  | statsMsg : SystemStats → Msg
  | resize : Int → Int → Msg
deriving DecidableEq

/-- Commands returned by `Update`: `nil` (modelling also the inert command of
the external table component), `tea.Quit`, and
`tea.Batch(tickCmd(), updateStats())` — the only place a new sampling request
is issued. -/
inductive Cmd where
  | none : Cmd
  | quit : Cmd
  | tickAndSample : Cmd
deriving DecidableEq

/-- Mirror of `model.Update` (main.go lines 184-221).  Key presses `q` and
`ctrl+c` return early with `tea.Quit`; the four sort keys set the criterion
and always flip `ascending` (and notably do NOT call `updateTable`); a tick
records the time and issues `tea.Batch(tickCmd(), updateStats())`; an
arriving `systemStats` is stored wholesale and triggers `updateTable`; a
resize only adjusts the table viewport.  The trailing
`m.table, cmd = m.table.Update(msg)` of the source is the external table
component, modelled as the identity with no command. -/
def update (msg : Msg) (m : Model) : Model × Cmd :=
  match msg with
  | Msg.key k =>
    if k = "q" ∨ k = "ctrl+c" then (m, Cmd.quit)
    else if k = "c" then
      ({ m with sortBy := "cpu", ascending := !m.ascending }, Cmd.none)
    else if k = "m" then
      ({ m with sortBy := "memory", ascending := !m.ascending }, Cmd.none)
    else if k = "p" then
      ({ m with sortBy := "pid", ascending := !m.ascending }, Cmd.none)
    else if k = "n" then
      ({ m with sortBy := "name", ascending := !m.ascending }, Cmd.none)
    else (m, Cmd.none)
  | Msg.tick t => ({ m with lastUpdate := t }, Cmd.tickAndSample)
  | Msg.statsMsg s => (updateTable { m with stats := s }, Cmd.none)
  | Msg.resize w h =>
    ({ m with tableWidth := w - 4, tableHeight := h - 12 }, Cmd.none)

/-- The all-empty stats value a fresh `model` starts with (Go zero value of
`systemStats`). -/
def emptyStats : SystemStats :=
  { uptime := 0
    loadAvg := Option.none
    cpuPercent := []
    memStats := Option.none
    processes := []
    processInfo := [] }

/-- Mirror of `initialModel` (main.go lines 67-100): sort by CPU descending;
the table starts with no rows and height 15. -/
def initialModel : Model :=
  { tableRows := []
    tableWidth := 0
    tableHeight := 15
    stats := emptyStats
    sortBy := "cpu"
    ascending := false
    lastUpdate := 0 }

/-- States reachable from `initialModel` by any sequence of handled
messages. -/
inductive Reachable : Model → Prop where
  | init : Reachable initialModel
  | step {m : Model} (msg : Msg) : Reachable m → Reachable (update msg m).1

/-- The per-core loop of `View` (main.go lines 303-314): emit each usage as
`%.1f%%`, space-separated; after writing index 7 (the 8th core), append
` (+N more)` when more than 8 cores exist and stop.  `n` is
`len(m.stats.cpuPercent)`, `i` the index of the head of the remaining list. -/
def cpuLoopAux (n : Nat) : Nat → List Rat → String
  | _, [] => ""
  | i, u :: us =>
    (if i > 0 then " " else "") ++ fmt1 u ++ "%" ++
      (if i ≥ 7 then
        (if n > 8 then " (+" ++ toString (n - 8) ++ " more)" else "")
      else cpuLoopAux n (i + 1) us)

/-- The CPU line of `View` (main.go lines 301-316): rendered only when the
per-core list is nonempty. -/
def cpuLine (l : List Rat) : Option String :=
  if l.length > 0 then Option.some ("CPU: " ++ cpuLoopAux l.length 0 l ++ "\n")
  else Option.none

/-- Space-separated concatenation, used to state the closed form of the CPU
line. -/
def joinSp : List String → String
  | [] => ""
  | [s] => s
  | s :: s' :: rest => s ++ " " ++ joinSp (s' :: rest)

/-- Predicate for the entries of the `processes` slice that survive ingestion:
non-nil with a non-empty name. -/
def namedProc : Option RawProc → Bool
  | Option.some p => p.name != ""
  | Option.none => false

instance (sb : String) (asc : Bool) : IsTotal ProcessInfo (sortLE sb asc) := by
  constructor
  intro a b
  simp only [sortLE, lessFn]
  split_ifs <;>
    simp only [decide_eq_false_iff_not, gt_iff_lt, not_lt] <;>
    first
      | exact le_total _ _
      | trivial

instance (sb : String) (asc : Bool) : IsTrans ProcessInfo (sortLE sb asc) := by
  constructor
  intro a b c hab hbc
  simp only [sortLE, lessFn] at hab hbc ⊢
  split_ifs at hab hbc ⊢ <;>
    simp only [decide_eq_false_iff_not, gt_iff_lt, not_lt] at hab hbc ⊢ <;>
    first
      | exact le_trans hab hbc
      | exact le_trans hbc hab

lemma sortProcs_sorted (sb : String) (asc : Bool) (l : List ProcessInfo) :
    List.Sorted (sortLE sb asc) (sortProcs sb asc l) :=
  List.sorted_insertionSort _ l

lemma sortProcs_perm (sb : String) (asc : Bool) (l : List ProcessInfo) :
    List.Perm (sortProcs sb asc l) l :=
  List.perm_insertionSort _ l

lemma sortProcs_length (sb : String) (asc : Bool) (l : List ProcessInfo) :
    (sortProcs sb asc l).length = l.length :=
  (sortProcs_perm sb asc l).length_eq

lemma mem_sortProcs {sb : String} {asc : Bool} {l : List ProcessInfo}
    {p : ProcessInfo} (hp : p ∈ sortProcs sb asc l) : p ∈ l :=
  (sortProcs_perm sb asc l).mem_iff.mp hp

lemma rowsLoop_eq (l : List ProcessInfo) (cap : Nat) :
    rowsLoop l cap = (l.take cap).map toRow := by
  induction l generalizing cap with
  | nil => simp [rowsLoop]
  | cons p ps ih =>
    cases cap with
    | zero => rfl
    | succ c => simp [rowsLoop, ih]

lemma getProcessInfo_length (procs : List (Option RawProc)) :
    (getProcessInfo procs).length = procs.countP namedProc := by
  induction procs with
  | nil => rfl
  | cons o ps ih =>
    cases o with
    | none => simp [getProcessInfo, List.countP_cons, namedProc, ih]
    | some p =>
      by_cases hp : p.name = "" <;>
        simp [getProcessInfo, List.countP_cons, namedProc, hp, ih]

/-- The at-most-50 process records actually retained for display: the sorted
list truncated by the 50-row cap of `updateTable`. -/
def retained (info : List ProcessInfo) (sortBy : String) (ascending : Bool) :
    List ProcessInfo :=
  (sortProcs sortBy ascending info).take 50

lemma deriveRows_eq_retained (info : List ProcessInfo) (sb : String)
    (asc : Bool) : deriveRows info sb asc = (retained info sb asc).map toRow := by
  simp [deriveRows, retained, rowsLoop_eq]

lemma retained_chain {sb : String} {asc : Bool} (l : List ProcessInfo)
    {R : ProcessInfo → ProcessInfo → Prop}
    (h : ∀ a b, sortLE sb asc a b → R a b) :
    List.Chain' R (retained l sb asc) := by
  have hp : List.Pairwise (sortLE sb asc) (retained l sb asc) :=
    (sortProcs_sorted sb asc l).sublist (List.take_sublist _ _)
  exact (hp.imp fun hab => h _ _ hab).chain'

/-- Spec-side statement of the example scenario of §8: processes
`{pid 1, name a, cpu 10}`, `{pid 2, name b, cpu 90}`, `{pid 3, name empty,
cpu 50}` under `{cpu, descending}` derive rows `[pid 2, pid 1]`. -/
example :
    (deriveRows
      (getProcessInfo
        [Option.some { pid := 1, name := "a", cpuPerc := 10, memPerc := 0,
                       status := "S", username := "root" },
         Option.some { pid := 2, name := "b", cpuPerc := 90, memPerc := 0,
                       status := "S", username := "root" },
         Option.some { pid := 3, name := "", cpuPerc := 50, memPerc := 0,
                       status := "S", username := "root" }])
      "cpu" false).map Row.pid = ["2", "1"] := by decide

/-- C1: for every Snapshot and SortDirective, the derived row list has length
`min 50 (number of processes whose name is non-empty)`: empty-name (and nil)
process records are discarded by `getProcessInfo` at ingestion, and
`updateTable` truncates the post-sort list to at most 50 rows. -/
theorem row_count_invariant (procs : List (Option RawProc)) (sb : String)
    (asc : Bool) :
    (deriveRows (getProcessInfo procs) sb asc).length =
      min 50 (procs.countP namedProc) := by
  simp [deriveRows, rowsLoop_eq, sortProcs_length, getProcessInfo_length]

/-- C2: for every ingested process list and directive, the retained display
sequence is monotone in the active criterion and direction — adjacent pairs
are ordered by `CPUPerc` for `cpu`, `MemPerc` for `memory`, numeric `PID` for
`pid` and lexicographic `Name` for `name`, ascending or descending per the
flag; and the derived rows are exactly the image of that retained sequence. -/
theorem sort_monotone :
    (∀ (l : List ProcessInfo) (asc : Bool),
      List.Chain'
        (fun a b => if asc then a.CPUPerc ≤ b.CPUPerc else b.CPUPerc ≤ a.CPUPerc)
        (retained l "cpu" asc)) ∧
    (∀ (l : List ProcessInfo) (asc : Bool),
      List.Chain'
        (fun a b => if asc then a.MemPerc ≤ b.MemPerc else b.MemPerc ≤ a.MemPerc)
        (retained l "memory" asc)) ∧
    (∀ (l : List ProcessInfo) (asc : Bool),
      List.Chain'
        (fun a b => if asc then a.PID ≤ b.PID else b.PID ≤ a.PID)
        (retained l "pid" asc)) ∧
    (∀ (l : List ProcessInfo) (asc : Bool),
      List.Chain'
        (fun a b => if asc then a.Name ≤ b.Name else b.Name ≤ a.Name)
        (retained l "name" asc)) ∧
    (∀ (l : List ProcessInfo) (sb : String) (asc : Bool),
      deriveRows l sb asc = (retained l sb asc).map toRow) := by
  refine ⟨?_, ?_, ?_, ?_, deriveRows_eq_retained⟩ <;>
  · intro l asc
    apply retained_chain
    intro a b hab
    cases asc <;> simp_all [sortLE, lessFn, not_lt]

/-- The sort criterion each of the four sort keys selects in `Update`. -/
def criterionFor (k : String) : String :=
  if k = "c" then "cpu"
  else if k = "m" then "memory"
  else if k = "p" then "pid"
  else "name"

/-- C3: pressing the same sort key twice with no snapshot change restores the
ascending flag (flip-flip is the identity), the criterion equals the selected
one already after the first press, and every sort-key press flips the flag
regardless of whether the criterion changed. -/
theorem sort_toggle (m : Model) (k : String)
    (hk : k = "c" ∨ k = "m" ∨ k = "p" ∨ k = "n") :
    (update (Msg.key k) (update (Msg.key k) m).1).1.ascending = m.ascending ∧
    (update (Msg.key k) m).1.sortBy = criterionFor k ∧
    (update (Msg.key k) (update (Msg.key k) m).1).1.sortBy = criterionFor k ∧
    (update (Msg.key k) m).1.ascending = !m.ascending := by
  rcases hk with h | h | h | h <;> subst h <;> simp [update, criterionFor]

/-- Witness for `sort_toggle` at the cpu key and the initial model. -/
theorem sort_toggle_witness :
    ("c" = "c" ∨ "c" = "m" ∨ "c" = "p" ∨ "c" = "n") ∧
    ((update (Msg.key "c") (update (Msg.key "c") initialModel).1).1.ascending =
        initialModel.ascending ∧
     (update (Msg.key "c") initialModel).1.sortBy = criterionFor "c" ∧
     (update (Msg.key "c") (update (Msg.key "c") initialModel).1).1.sortBy =
        criterionFor "c" ∧
     (update (Msg.key "c") initialModel).1.ascending = !initialModel.ascending) :=
  ⟨Or.inl rfl, sort_toggle initialModel "c" (Or.inl rfl)⟩

/-- C7: a resize message changes only the viewport dimensions handed to the
table; the snapshot, sort directive and displayed row content are untouched,
and no command is issued. -/
theorem resize_frame (m : Model) (w h : Int) :
    (update (Msg.resize w h) m).1.stats = m.stats ∧
    (update (Msg.resize w h) m).1.sortBy = m.sortBy ∧
    (update (Msg.resize w h) m).1.ascending = m.ascending ∧
    (update (Msg.resize w h) m).1.tableRows = m.tableRows ∧
    (update (Msg.resize w h) m).1.tableWidth = w - 4 ∧
    (update (Msg.resize w h) m).1.tableHeight = h - 12 ∧
    (update (Msg.resize w h) m).2 = Cmd.none :=
  ⟨rfl, rfl, rfl, rfl, rfl, rfl, rfl⟩

/-- C8: row derivation reads only the ingested process list and the sort
directive — two models agreeing on those derive identical rows, whatever
their other fields — and the rows `updateTable` installs are exactly
`deriveRows` of those inputs. -/
theorem derive_pure (m₁ m₂ : Model)
    (hinfo : m₁.stats.processInfo = m₂.stats.processInfo)
    (hsb : m₁.sortBy = m₂.sortBy) (hasc : m₁.ascending = m₂.ascending) :
    (updateTable m₁).tableRows = (updateTable m₂).tableRows ∧
    (updateTable m₁).tableRows =
      deriveRows m₁.stats.processInfo m₁.sortBy m₁.ascending := by
  constructor
  · show deriveRows m₁.stats.processInfo m₁.sortBy m₁.ascending =
      deriveRows m₂.stats.processInfo m₂.sortBy m₂.ascending
    rw [hinfo, hsb, hasc]
  · rfl

/-- Witness for `derive_pure`: two models differing in viewport and row cache
but agreeing on snapshot data and directive. -/
theorem derive_pure_witness :
    ({ initialModel with tableWidth := 99 } : Model).stats.processInfo =
        initialModel.stats.processInfo ∧
    ({ initialModel with tableWidth := 99 } : Model).sortBy =
        initialModel.sortBy ∧
    ({ initialModel with tableWidth := 99 } : Model).ascending =
        initialModel.ascending ∧
    ((updateTable { initialModel with tableWidth := 99 }).tableRows =
        (updateTable initialModel).tableRows ∧
      (updateTable { initialModel with tableWidth := 99 }).tableRows =
        deriveRows ({ initialModel with tableWidth := 99 } : Model).stats.processInfo
          ({ initialModel with tableWidth := 99 } : Model).sortBy
          ({ initialModel with tableWidth := 99 } : Model).ascending) :=
  ⟨rfl, rfl, rfl, derive_pure { initialModel with tableWidth := 99 }
    initialModel rfl rfl rfl⟩

/-- The sort criteria the comparator of `updateTable` recognises. -/
def validCriterion (s : String) : Prop :=
  s = "cpu" ∨ s = "memory" ∨ s = "pid" ∨ s = "name"

/-- C10: in every reachable state the criterion is one of cpu, memory, pid,
name (initially cpu), and a key press other than the four sort keys and the
two quit keys changes neither the criterion nor the flag — so the
comparator's fall-through branch for an unrecognised criterion is never
exercised from a reachable state. -/
theorem criterion_invariant :
    initialModel.sortBy = "cpu" ∧
    (∀ m : Model, Reachable m → validCriterion m.sortBy) ∧
    (∀ (m : Model) (k : String),
      ¬(k = "c" ∨ k = "m" ∨ k = "p" ∨ k = "n" ∨ k = "q" ∨ k = "ctrl+c") →
      (update (Msg.key k) m).1.sortBy = m.sortBy ∧
      (update (Msg.key k) m).1.ascending = m.ascending) := by
  refine ⟨rfl, ?_, ?_⟩
  · intro m hm
    induction hm with
    | init => exact Or.inl rfl
    | step msg hm ih =>
      cases msg with
      | key k =>
        simp only [update]
        split_ifs <;> simp_all [validCriterion]
      | tick t => simpa [update] using ih
      | statsMsg s => simpa [update, updateTable] using ih
      | resize w h => simpa [update] using ih
  · intro m k hk
    push_neg at hk
    obtain ⟨h1, h2, h3, h4, h5, h6⟩ := hk
    simp [update, h1, h2, h3, h4, h5, h6]

/-- Witness for `criterion_invariant` at the initial model and the key x. -/
theorem criterion_invariant_witness :
    validCriterion initialModel.sortBy ∧
    ((update (Msg.key "x") initialModel).1.sortBy = initialModel.sortBy ∧
     (update (Msg.key "x") initialModel).1.ascending =
        initialModel.ascending) :=
  ⟨criterion_invariant.2.1 initialModel Reachable.init,
   criterion_invariant.2.2 initialModel "x" (by decide)⟩

/-- A concrete snapshot with two named processes, cpu 90 and cpu 10. -/
def statsCex : SystemStats :=
  { emptyStats with
    processInfo :=
      [{ PID := 1, Name := "b", CPUPerc := 90, MemPerc := 0, Status := "S",
         User := "root" },
       { PID := 2, Name := "a", CPUPerc := 10, MemPerc := 0, Status := "S",
         User := "root" }] }

/-- The state after that snapshot has been handled from the initial model:
sorting is cpu descending and the table shows the cpu-descending rows. -/
def modelCex : Model := (update (Msg.statsMsg statsCex) initialModel).1

/-- C4 counterexample: pressing the cpu sort key in `modelCex` switches the
directive to cpu ascending, yet the displayed rows are exactly the ones shown
before the press and are NOT the rows derived from the stored snapshot under
the updated directive — `Update` does not call `updateTable` on a key press. -/
theorem key_press_no_rederive_cex :
    (update (Msg.key "c") modelCex).1.sortBy = "cpu" ∧
    (update (Msg.key "c") modelCex).1.ascending = true ∧
    (update (Msg.key "c") modelCex).1.tableRows = modelCex.tableRows ∧
    (update (Msg.key "c") modelCex).1.tableRows ≠
      deriveRows (update (Msg.key "c") modelCex).1.stats.processInfo
        (update (Msg.key "c") modelCex).1.sortBy
        (update (Msg.key "c") modelCex).1.ascending := by
  decide

/-- C4 (amended): a sort-key press updates only the sort directive — it
issues no sampling command and leaves both the stored snapshot and the
displayed rows untouched; the rows are re-derived under the updated directive
only when the next snapshot message is handled. -/
theorem key_press_updates_directive_only (m : Model) (k : String)
    (hk : k = "c" ∨ k = "m" ∨ k = "p" ∨ k = "n") :
    (update (Msg.key k) m).1.tableRows = m.tableRows ∧
    (update (Msg.key k) m).1.stats = m.stats ∧
    (update (Msg.key k) m).2 = Cmd.none ∧
    (update (Msg.key k) m).1.sortBy = criterionFor k ∧
    (update (Msg.key k) m).1.ascending = !m.ascending ∧
    ∀ s : SystemStats,
      (update (Msg.statsMsg s) (update (Msg.key k) m).1).1.tableRows =
        deriveRows s.processInfo (criterionFor k) (!m.ascending) := by
  rcases hk with h | h | h | h <;> subst h <;>
    simp [update, updateTable, criterionFor]

/-- Witness for `key_press_updates_directive_only` at the memory key and
`modelCex`. -/
theorem key_press_updates_directive_only_witness :
    ("m" = "c" ∨ "m" = "m" ∨ "m" = "p" ∨ "m" = "n") ∧
    ((update (Msg.key "m") modelCex).1.tableRows = modelCex.tableRows ∧
     (update (Msg.key "m") modelCex).1.stats = modelCex.stats ∧
     (update (Msg.key "m") modelCex).2 = Cmd.none ∧
     (update (Msg.key "m") modelCex).1.sortBy = criterionFor "m" ∧
     (update (Msg.key "m") modelCex).1.ascending = !modelCex.ascending ∧
     ∀ s : SystemStats,
       (update (Msg.statsMsg s) (update (Msg.key "m") modelCex).1).1.tableRows =
         deriveRows s.processInfo (criterionFor "m") (!modelCex.ascending)) :=
  ⟨Or.inr (Or.inl rfl),
   key_press_updates_directive_only modelCex "m" (Or.inr (Or.inl rfl))⟩

/-- C5: every row retained for display comes from an ingested process record,
and its command column is the record's name unchanged when at most 28
characters, or exactly the first 28 characters followed by the two-character
`".."` marker when longer. -/
theorem name_truncation (info : List ProcessInfo) (sb : String) (asc : Bool)
    (r : Row) (hr : r ∈ deriveRows info sb asc) :
    ∃ p ∈ info, r = toRow p ∧
      (28 < p.Name.length → r.command = p.Name.take 28 ++ "..") ∧
      (p.Name.length ≤ 28 → r.command = p.Name) := by
  rw [deriveRows_eq_retained] at hr
  obtain ⟨p, hp, hpr⟩ := List.mem_map.mp hr
  subst hpr
  refine ⟨p, mem_sortProcs (List.mem_of_mem_take hp), rfl, ?_, ?_⟩
  · intro h
    show (if p.Name.length > 28 then p.Name.take 28 ++ ".." else p.Name) = _
    rw [if_pos h]
  · intro h
    show (if p.Name.length > 28 then p.Name.take 28 ++ ".." else p.Name) = _
    rw [if_neg (not_lt.mpr h)]

/-- A process record with a 30-character name, for the truncation witness. -/
def pLong : ProcessInfo :=
  { PID := 7, Name := "abcdefghijklmnopqrstuvwxyz0123", CPUPerc := 1,
    MemPerc := 1, Status := "R", User := "root" }

set_option maxRecDepth 8192 in
/-- Witness for `name_truncation` on a single-process snapshot whose name has
30 characters. -/
theorem name_truncation_witness :
    toRow pLong ∈ deriveRows [pLong] "cpu" false ∧
    ∃ p ∈ [pLong], toRow pLong = toRow p ∧
      (28 < p.Name.length → (toRow pLong).command = p.Name.take 28 ++ "..") ∧
      (p.Name.length ≤ 28 → (toRow pLong).command = p.Name) :=
  ⟨by decide, name_truncation [pLong] "cpu" false (toRow pLong) (by decide)⟩

/-- C6: every process record that survives ingestion carries the sampled
username truncated to its first 8 characters when longer than 8, unmodified
otherwise — the truncation happens inside `getProcessInfo`, before any
sorting or row construction. -/
theorem user_truncation (procs : List (Option RawProc)) (p : RawProc)
    (hp : Option.some p ∈ procs) (hname : p.name ≠ "") :
    ∃ info ∈ getProcessInfo procs,
      info.PID = p.pid ∧ info.Name = p.name ∧
      (8 < p.username.length → info.User = p.username.take 8) ∧
      (p.username.length ≤ 8 → info.User = p.username) := by
  induction procs with
  | nil => cases hp
  | cons o ps ih =>
    rcases List.mem_cons.mp hp with h | h
    · subst h
      rw [getProcessInfo, if_neg hname]
      refine ⟨_, List.mem_cons_self _ _, rfl, rfl, ?_, ?_⟩
      · intro h8
        show (if p.username.length > 8 then p.username.take 8 else p.username) = _
        rw [if_pos h8]
      · intro h8
        show (if p.username.length > 8 then p.username.take 8 else p.username) = _
        rw [if_neg (not_lt.mpr h8)]
    · obtain ⟨info, hinfo, hrest⟩ := ih h
      refine ⟨info, ?_, hrest⟩
      cases o with
      | none => simpa [getProcessInfo] using hinfo
      | some q =>
        by_cases hq : q.name = "" <;> simp [getProcessInfo, hq, hinfo]

/-- A raw process with a 12-character username, for the witness. -/
def rawLongUser : RawProc :=
  { pid := 3, name := "sh", cpuPerc := 0, memPerc := 0, status := "S",
    username := "verylonguser" }

/-- Witness for `user_truncation` on a one-entry process list whose username
has 12 characters. -/
theorem user_truncation_witness :
    Option.some rawLongUser ∈ [Option.some rawLongUser] ∧
    rawLongUser.name ≠ "" ∧
    ∃ info ∈ getProcessInfo [Option.some rawLongUser],
      info.PID = rawLongUser.pid ∧ info.Name = rawLongUser.name ∧
      (8 < rawLongUser.username.length →
        info.User = rawLongUser.username.take 8) ∧
      (rawLongUser.username.length ≤ 8 →
        info.User = rawLongUser.username) :=
  ⟨by decide, by decide,
   user_truncation [Option.some rawLongUser] rawLongUser (by decide) (by decide)⟩

lemma joinSp_cons (s : String) (l : List String) (hl : l ≠ []) :
    joinSp (s :: l) = s ++ " " ++ joinSp l := by
  cases l with
  | nil => exact absurd rfl hl
  | cons t ts => rfl

lemma cpuLoopAux_cons (n i : Nat) (u : Rat) (us : List Rat) :
    cpuLoopAux n i (u :: us) =
      (if 0 < i then " " else "") ++ fmt1 u ++ "%" ++
        (if 7 ≤ i then
          (if 8 < n then " (+" ++ toString (n - 8) ++ " more)" else "")
        else cpuLoopAux n (i + 1) us) := rfl

lemma cpuLoopAux_closed (us : List Rat) :
    ∀ i : Nat, i ≤ 7 → us ≠ [] →
      cpuLoopAux (i + us.length) i us =
        (if 0 < i then " " else "") ++
          joinSp ((us.take (8 - i)).map fun u => fmt1 u ++ "%") ++
          (if 8 < i + us.length then
            " (+" ++ toString (i + us.length - 8) ++ " more)"
          else "") := by
  induction us with
  | nil =>
    intro i _ h
    exact absurd rfl h
  | cons u vs ih =>
    intro i hi _
    cases vs with
    | nil =>
      have h8 : ¬ 8 < i + 1 := by omega
      have ht : (8 : Nat) - i = (7 - i) + 1 := by omega
      simp only [List.length_cons, List.length_nil]
      rw [ht]
      simp [cpuLoopAux, joinSp, h8, ite_self, String.append_empty,
        String.append_assoc]
    | cons v ws =>
      by_cases h7 : 7 ≤ i
      · have hieq : i = 7 := le_antisymm hi h7
        subst hieq
        have hc : 8 < 7 + (ws.length + 1 + 1) := by omega
        simp [cpuLoopAux, joinSp, hc, List.length_cons, String.append_assoc]
      · have hi1 : i + 1 ≤ 7 := by omega
        have hne : (v :: ws) ≠ [] := by simp
        have hstep := ih (i + 1) hi1 hne
        have hlen : i + (u :: v :: ws).length = i + 1 + (v :: ws).length := by
          simp only [List.length_cons]
          omega
        rw [cpuLoopAux_cons, if_neg h7, hlen, hstep]
        have htk : (8 : Nat) - i = (8 - (i + 1)) + 1 := by omega
        rw [htk, List.take_succ_cons, List.map_cons]
        have hk : (8 : Nat) - (i + 1) = (6 - i) + 1 := by omega
        have hnem : ((v :: ws).take (8 - (i + 1))).map (fun u => fmt1 u ++ "%") ≠ [] := by
          rw [hk, List.take_succ_cons]
          simp
        rw [joinSp_cons _ _ hnem]
        apply String.ext
        simp [String.data_append, apply_ite String.data]

/-- C9: the per-core CPU header line shows at most the first 8 per-core
percentages, space-separated; when the core count exceeds 8 a ` (+N more)`
suffix follows with `N = count - 8`; and an empty per-core list renders no
CPU line at all. -/
theorem cpu_header_cap :
    cpuLine [] = Option.none ∧
    ∀ l : List Rat, l ≠ [] →
      cpuLine l =
        Option.some ("CPU: " ++
          joinSp ((l.take 8).map fun u => fmt1 u ++ "%") ++
          (if 8 < l.length then " (+" ++ toString (l.length - 8) ++ " more)"
           else "") ++ "\n") := by
  refine ⟨rfl, ?_⟩
  intro l hl
  have h0 : 0 < l.length := List.length_pos.mpr hl
  have hc := cpuLoopAux_closed l 0 (by omega) hl
  rw [Nat.zero_add] at hc
  rw [cpuLine, if_pos h0, hc]
  simp [String.empty_append, String.append_assoc]

/-- Witness for `cpu_header_cap` on a nine-core sample: the line carries the
first eight readings and a `(+1 more)` marker. -/
theorem cpu_header_cap_witness :
    ([1, 2, 3, 4, 5, 6, 7, 8, 9] : List Rat) ≠ [] ∧
    cpuLine [1, 2, 3, 4, 5, 6, 7, 8, 9] =
      Option.some ("CPU: " ++
        joinSp ((([1, 2, 3, 4, 5, 6, 7, 8, 9] : List Rat).take 8).map
          fun u => fmt1 u ++ "%") ++
        (if 8 < ([1, 2, 3, 4, 5, 6, 7, 8, 9] : List Rat).length then
          " (+" ++ toString (([1, 2, 3, 4, 5, 6, 7, 8, 9] : List Rat).length - 8) ++
            " more)"
         else "") ++ "\n") :=
  ⟨by decide, cpu_header_cap.2 [1, 2, 3, 4, 5, 6, 7, 8, 9] (by decide)⟩

end XTop
